import Mathlib

/-!
Shallow embedding of the Task Orchestration Engine of the `ai-automation`
repository (TypeScript): the task/step state machine (`src/agents/base.ts`),
the parameter resolver, the tool registry (`src/tools/registry.ts`), the
automation agent's planning fallback (`automation-agent.ts`) and the
resilience layer (`src/utils/retry.ts`).  JavaScript dynamic values are
embedded as a JSON-like tagged union `Value`; JS `Map`s and objects are
embedded as association lists whose `set` updates in place (preserving
insertion order) and appends fresh keys at the end, matching JS semantics.
-/

namespace AIAutomation

/-- JSON-like dynamic value, the embedding of the `unknown` parameter and
result values flowing through the engine.  `vnull` is JS `null`; JS
`undefined` is represented by `Option.none` at the use sites where the code
distinguishes it (`result.data !== undefined`). -/
inductive Value where
  | vstr (s : String)
  | vnum (n : Int)
  | vbool (b : Bool)
  | vnull
  | vobj (fields : List (String × Value))
  | varr (items : List Value)
deriving Repr

/-- Discriminator: is this value JS `null`?  (The code tests `value !== null`
and uses `??`, which triggers on `null`/`undefined`.) -/
def Value.isNull : Value → Bool
  | .vnull => true
  | _ => false

/-- Discriminator: is this value an array? -/
def Value.isArr : Value → Bool
  | .varr _ => true
  | _ => false

/-- A JS object / `Record<string, unknown>` as an ordered association list. -/
abbrev Params := List (String × Value)

/-- First binding of a key in an association list (JS `Map.get` /
property lookup, keys unique by construction). -/
def lookupEntry {α : Type} : List (String × α) → String → Option α
  | [], _ => none
  | (k, v) :: rest, key => if k = key then some v else lookupEntry rest key

/-- JS `Map.set` / object-spread overwrite: update in place when the key is
present (keeping its position), append at the end otherwise. -/
def setEntry {α : Type} : List (String × α) → String → α → List (String × α)
  | [], key, v => [(key, v)]
  | (k, w) :: rest, key, v =>
    if k = key then (key, v) :: rest else (k, w) :: setEntry rest key v

/-- JS `key in obj`. -/
def hasKey {α : Type} (l : List (String × α)) (key : String) : Bool :=
  (lookupEntry l key).isSome

/-- `needle` is a prefix of `hay` (over characters). -/
def listIsPrefix : List Char → List Char → Bool
  | [], _ => true
  | _ :: _, [] => false
  | a :: as, b :: bs => a = b && listIsPrefix as bs

/-- Helper for substring containment: does `needle` occur in `hay`? -/
def containsAux (needle : List Char) : List Char → Bool
  | [] => listIsPrefix needle []
  | c :: cs => listIsPrefix needle (c :: cs) || containsAux needle cs

/-- JS `hay.includes(needle)`: substring containment. -/
def strContains (hay needle : String) : Bool :=
  containsAux needle.data hay.data

/-- JS `s.startsWith("$")`. -/
def startsWithDollar (s : String) : Bool :=
  match s.data with
  | [] => false
  | c :: _ => c = '$'

/-- JS `s.slice(1)`: drop the first character. -/
def strDropOne (s : String) : String :=
  String.mk (s.data.drop 1)

/-- JS `s.toLowerCase()` (ASCII, as exercised by the code). -/
def strToLower (s : String) : String :=
  String.mk (s.data.map Char.toLower)

/-- JS `name.replace(/_/g, ' ')`. -/
def underscoresToSpaces (s : String) : String :=
  String.mk (s.data.map (fun c => if c = '_' then ' ' else c))

/-- JS `list.join(', ')`. -/
def joinComma : List String → String
  | [] => ""
  | [s] => s
  | s :: rest => s ++ ", " ++ joinComma rest

-- ===========================================================================
-- Parameter Resolver (`BaseAgent.resolveParameters`, src/agents/base.ts)
-- ===========================================================================

/-- The execution context's variable mapping (`context.variables`, a JS
`Map<string, unknown>` mutated with `set`). -/
abbrev VarMap := List (String × Value)

mutual

/-- Resolution of one parameter value, the body of the `for` loop of
`resolveParameters`:
* a string starting with `$` is a variable reference: look the rest up in
  `context.variables`; `get(varPath) ?? value` keeps the original string when
  the key is absent (`undefined`) or when the stored value is `null`;
* `typeof value === 'object' && value !== null` recurses — in JS this branch
  also captures arrays (`typeof [] === 'object'`), whose `Object.entries` are
  their elements keyed by the decimal index, so an array comes back as a
  plain object keyed `"0"`, `"1"`, …;
* everything else passes through unchanged. -/
def resolveValue (vars : VarMap) : Value → Value
  | .vstr s =>
    if startsWithDollar s then
      match lookupEntry vars (strDropOne s) with
      | some v => if v.isNull then .vstr s else v
      | none => .vstr s
    else .vstr s
  | .vnum n => .vnum n
  | .vbool b => .vbool b
  | .vnull => .vnull
  | .vobj fields => .vobj (resolveFields vars fields)
  | .varr items => .vobj (resolveIndexed vars 0 items)

/-- `resolveParameters` applied to the entries of an object. -/
def resolveFields (vars : VarMap) : List (String × Value) → List (String × Value)
  | [] => []
  | (k, v) :: rest => (k, resolveValue vars v) :: resolveFields vars rest

/-- `resolveParameters` applied to `Object.entries` of an array: keys are the
decimal element indices. -/
def resolveIndexed (vars : VarMap) (i : Nat) : List Value → List (String × Value)
  | [] => []
  | v :: rest => (toString i, resolveValue vars v) :: resolveIndexed vars (i + 1) rest

end

/-- `BaseAgent.resolveParameters(params, context)`: builds a fresh record
with every entry resolved. -/
def resolveParameters (params : Params) (vars : VarMap) : Params :=
  resolveFields vars params

-- ===========================================================================
-- Tool Registry (`ToolRegistry.execute`, src/tools/registry.ts)
-- ===========================================================================

/-- A tool's execution result (`ToolResult` of `src/types/index.ts`, staged
as the second document inside `src/.eslintrc.cjs`): `success`, optional
`data`, optional `error`, optional `metadata`.  `Option.none` stands for an
absent (`undefined`) field. -/
structure ToolResult where
  success : Bool
  data : Option Value := none
  error : Option String := none
  metadata : Option Params := none
deriving Repr

/-- A declared tool parameter: name, required flag, optional default.  (The
semantic type tag and description play no role in `execute`.) -/
structure ParamDecl where
  name : String
  required : Bool := false
  dflt : Option Value := none

/-- A registered tool: name plus declared parameters and an executable
capability.  A thrown JS error is embedded as `Except.error message`. -/
structure ToolDefinition where
  name : String
  parameters : List ParamDecl
  run : Params → Except String ToolResult

/-- The registry's name → tool map (`this.tools`), ordered like a JS `Map`. -/
abbrev Registry := List ToolDefinition

/-- `this.tools.get(name)`. -/
def findTool : Registry → String → Option ToolDefinition
  | [], _ => none
  | t :: rest, name => if t.name = name then some t else findTool rest name

/-- The missing required parameters computed by `ToolRegistry.execute`:
`tool.parameters.filter(p => p.required && !(p.name in params)).map(p => p.name)`. -/
def missingParams (decls : List ParamDecl) (params : Params) : List String :=
  (decls.filter (fun p => p.required && !(hasKey params p.name))).map (fun p => p.name)

/-- Default application of `ToolRegistry.execute`: for each declared
parameter absent from the input and carrying a default, assign it. -/
def applyDefaults (decls : List ParamDecl) (params : Params) : Params :=
  decls.foldl
    (fun acc p =>
      if !(hasKey acc p.name) && p.dflt.isSome then
        setEntry acc p.name (p.dflt.getD .vnull)
      else acc)
    params

/-- `ToolRegistry.execute(name, params)`.  Wall-clock time is external to the
embedding: `duration` is the value `Date.now() - startTime` observed for this
call.  Returns the `ToolResult` together with whether the tool's capability
was invoked.
* unknown tool: early `{success:false, error:"Tool '<name>' not found"}`
  with no metadata and nothing invoked;
* missing required parameters: early failure listing them, again with no
  metadata and nothing invoked;
* otherwise run the capability on the defaulted parameters; a normal result
  is returned with `executionTimeMs` merged into its metadata; a thrown
  error becomes `{success:false, error:message}` with fresh metadata holding
  `executionTimeMs`. -/
def registryExecute (tools : Registry) (name : String) (params : Params)
    (duration : Int) : ToolResult × Bool :=
  match findTool tools name with
  | none =>
    ({ success := false, error := some ("Tool '" ++ name ++ "' not found") }, false)
  | some tool =>
    let missing := missingParams tool.parameters params
    if missing ≠ [] then
      ({ success := false,
         error := some ("Missing required parameters: " ++ joinComma missing) }, false)
    else
      let resolvedParams := applyDefaults tool.parameters params
      match tool.run resolvedParams with
      | .ok result =>
        ({ result with
           metadata := some (setEntry (result.metadata.getD []) "executionTimeMs"
             (.vnum duration)) }, true)
      | .error msg =>
        ({ success := false, error := some msg,
           metadata := some [("executionTimeMs", .vnum duration)] }, true)

-- ===========================================================================
-- Task / Step state machine (`BaseAgent`, src/agents/base.ts)
-- ===========================================================================

/-- `TaskStatusSchema` of `src/types/index.ts`.  Steps use the restriction
`pending/executing/completed/failed`. -/
inductive Status where
  | pending | planning | executing | completed | failed | cancelled
deriving Repr, DecidableEq

/-- `TaskPrioritySchema` of `src/types/index.ts` (staged as the second
document inside `src/.eslintrc.cjs`): `z.enum(['low','medium','high',
'critical'])`. -/
inductive Priority where
  | low | medium | high | critical
deriving Repr, DecidableEq

/-- A validated task input, `z.infer<typeof TaskInputSchema>` of
`src/types/index.ts`: all defaults applied. -/
structure TaskInput where
  description : String
  priority : Priority := .medium
  context : Option Params := none
  maxSteps : Nat := 10
  timeoutMs : Nat := 60000
deriving Repr

/-- A raw, unvalidated task input as a caller may supply it: optional fields
are `none` when omitted, and priority arrives as free text.  (The dynamic
type checks of the Zod schema — string-ness of `description`, number-ness
of the bounds — are structural here; the value-level checks are performed
by `parseTaskInput`.) -/
structure RawTaskInput where
  description : String
  priority : Option String := none
  context : Option Params := none
  maxSteps : Option Int := none
  timeoutMs : Option Int := none

/-- `TaskPrioritySchema.default('medium')` applied to a raw priority:
absent defaults to `medium`; anything outside the enum is a validation
failure (a Zod invalid-enum-value issue). -/
def parsePriority : Option String → Option Priority
  | none => some .medium
  | some "low" => some .low
  | some "medium" => some .medium
  | some "high" => some .high
  | some "critical" => some .critical
  | some _ => none

/-- Second half of `TaskInputSchema.parse`: check
`timeoutMs: z.number().int().positive().default(60000)` and assemble the
validated input. -/
def assembleInput (p : Priority) (steps : Nat) (raw : RawTaskInput) :
    Except String TaskInput :=
  match raw.timeoutMs with
  | some t =>
    if t ≤ 0 then .error "Number must be greater than 0"
    else .ok { description := raw.description, priority := p, context := raw.context,
               maxSteps := steps, timeoutMs := t.toNat }
  | none => .ok { description := raw.description, priority := p, context := raw.context,
                  maxSteps := steps, timeoutMs := 60000 }

/-- `TaskInputSchema.parse` of `src/types/index.ts` (staged as the second
document inside `src/.eslintrc.cjs`):
`description: z.string().min(1, 'Task description is required')`,
`priority: TaskPrioritySchema.default('medium')`,
`context: z.record(z.unknown()).optional()`,
`maxSteps: z.number().int().positive().default(10)`,
`timeoutMs: z.number().int().positive().default(60000)`.
Zod's `parse` throws a `ZodError` on invalid input, embedded as
`Except.error` carrying the first issue's message (the `min(1)` check has
the custom message above; the positivity checks use Zod's default
message). -/
def parseTaskInput (raw : RawTaskInput) : Except String TaskInput :=
  if raw.description = "" then .error "Task description is required"
  else
    match parsePriority raw.priority with
    | none => .error "Invalid enum value"
    | some p =>
      match raw.maxSteps with
      | some n =>
        if n ≤ 0 then .error "Number must be greater than 0"
        else assembleInput p n.toNat raw
      | none => assembleInput p 10 raw

/-- A planned step (`TaskStep` of `src/types/index.ts`): identity, tool
name, parameter map, status, optional result and error.  Timestamps are
outside the embedding. -/
structure Step where
  id : String
  name : String
  description : String
  toolName : String
  parameters : Params
  status : Status := .pending
  result : Option Value := none
  error : Option String := none
deriving Repr

/-- A task: identity, validated input, status, ordered steps, optional
aggregated result, optional error. -/
structure Task where
  id : String
  input : TaskInput
  status : Status := .pending
  steps : List Step := []
  result : Option Value := none
  error : Option String := none
deriving Repr

/-- The per-task execution context: step-id → ToolResult map and the
variable map consumed by the Parameter Resolver (`vars` embeds the source's
`variables` field, whose name is a reserved word here). -/
structure ExecutionContext where
  taskId : String
  stepResults : List (String × ToolResult) := []
  vars : VarMap := []

/-- `BaseAgent.executeStep(step, context)`: resolve parameters, run the tool
(`toolExec` abstracts `toolRegistry.execute`; `Except.error` is a thrown JS
error caught by the surrounding `try`), then either mark the step completed
— recording the result in `stepResults` and, when `result.data` is defined,
registering it under `step.<id>.result` in `variables` — or mark it failed
with the result's (or thrown) error. -/
def executeStep (toolExec : String → Params → Except String ToolResult)
    (step : Step) (ctx : ExecutionContext) : Step × ExecutionContext :=
  let step := { step with status := .executing }
  let resolvedParams := resolveParameters step.parameters ctx.vars
  match toolExec step.toolName resolvedParams with
  | .ok result =>
    if result.success then
      let ctx :=
        { ctx with
          stepResults := setEntry ctx.stepResults step.id result,
          vars :=
            match result.data with
            | some d => setEntry ctx.vars ("step." ++ step.id ++ ".result") d
            | none => ctx.vars }
      ({ step with status := .completed, result := result.data }, ctx)
    else
      ({ step with status := .failed, error := result.error }, ctx)
  | .error msg =>
    ({ step with status := .failed, error := some msg }, ctx)

/-- The step loop of `BaseAgent.execute`: walk the steps in plan order while
the task status is still `executing`; execute each; a failed step sets the
task status to `failed`, copies its error, and breaks the loop.  Returns the
updated steps, the task status, the task error and the final context. -/
def runSteps (toolExec : String → Params → Except String ToolResult) :
    List Step → Status → Option String → ExecutionContext →
    List Step × Status × Option String × ExecutionContext
  | [], st, err, ctx => ([], st, err, ctx)
  | step :: rest, st, err, ctx =>
    if st ≠ .executing then (step :: rest, st, err, ctx)
    else
      let (step2, ctx2) := executeStep toolExec step ctx
      if step2.status = .failed then
        (step2 :: rest, .failed, step2.error, ctx2)
      else
        let (rest2, st2, err2, ctx3) := runSteps toolExec rest st err ctx2
        (step2 :: rest2, st2, err2, ctx3)

/-- `BaseAgent.aggregateResults(steps)`: map each step that completed with a
defined result to `{name, result}` under its id. -/
def aggregateResults (steps : List Step) : Value :=
  .vobj (steps.filterMap (fun s =>
    match s.result with
    | some r =>
      if s.status = .completed then
        some (s.id, .vobj [("name", .vstr s.name), ("result", r)])
      else none
    | none => none))

/-- The `try` block of `BaseAgent.execute` after the task is created:
planning (a thrown planner error is caught and becomes task failure), then
the step loop, then completion bookkeeping. -/
def executeBody (planner : Task → Except String (List Step))
    (toolExec : String → Params → Except String ToolResult)
    (task : Task) : Task :=
  let task := { task with status := .planning }
  match planner task with
  | .error e => { task with status := .failed, error := some e }
  | .ok steps =>
    let task := { task with steps := steps, status := .executing }
    let (steps2, st, err, _ctx) :=
      runSteps toolExec task.steps task.status task.error
        { taskId := task.id }
    let task := { task with steps := steps2, status := st, error := err }
    if task.status = .executing then
      { task with status := .completed, result := some (aggregateResults task.steps) }
    else task

/-- `BaseAgent.execute(input)`.  `TaskInputSchema.parse` runs before the
`try`/`catch`, so a validation failure is a thrown error escaping `execute`
(`Except.error`); on valid input a `Task` is created and everything after is
inside the failure boundary, so a `Task` is always returned. -/
def execute (planner : Task → Except String (List Step))
    (toolExec : String → Params → Except String ToolResult)
    (taskId : String) (raw : RawTaskInput) : Except String Task :=
  match parseTaskInput raw with
  | .error e => .error e
  | .ok input =>
    .ok (executeBody planner toolExec { id := taskId, input := input })

-- ===========================================================================
-- Automation Agent planning (`AutomationAgent`, automation-agent source)
-- ===========================================================================

/-- One step of a planner result (`PlanningResult.steps` element). -/
structure PlanStep where
  name : String
  description : String
  toolName : String
  parameters : Params

/-- `PlanningResult` of `src/types/index.ts`: reasoning plus a step list. -/
structure PlanningResult where
  reasoning : String
  steps : List PlanStep

/-- `AutomationAgent.convertPlanToSteps(plan)`: each planned step becomes a
pending `TaskStep` with a fresh id (`mkId` abstracts `generateId('step')`,
which draws random ids); a falsy (empty) name falls back to `Step <n>`. -/
def convertPlanToSteps (mkId : Nat → String) (plan : PlanningResult) : List Step :=
  (List.range plan.steps.length).zip plan.steps |>.map (fun (i, s) =>
    { id := mkId i,
      name := if s.name = "" then "Step " ++ toString (i + 1) else s.name,
      description := s.description,
      toolName := s.toolName,
      parameters := s.parameters,
      status := .pending })

/-- `AutomationAgent.createSimplePlan(task)`: match the lowercased task
description against the registered tool names with underscores replaced by
spaces; a match yields a single step for that tool with the task context (or
`{}`) as parameters; otherwise a single default `analyze_text` step over the
description. -/
def createSimplePlan (tools : Registry) (mkId : Nat → String) (task : Task) :
    List Step :=
  let toolNames := tools.map (fun t => t.name)
  match toolNames.find? (fun name =>
      strContains (strToLower task.input.description) (underscoresToSpaces name)) with
  | some matchedTool =>
    [{ id := mkId 0,
       name := "Execute " ++ matchedTool,
       description := task.input.description,
       toolName := matchedTool,
       parameters := task.input.context.getD [],
       status := .pending }]
  | none =>
    [{ id := mkId 0,
       name := "Analyze Input",
       description := "Analyze the task input for insights",
       toolName := "analyze_text",
       parameters := [("text", .vstr task.input.description)],
       status := .pending }]

/-- `AutomationAgent.plan(task)`: with no registered tools, plan simply;
otherwise ask the LLM planner (`aiPlan` abstracts `createAIPlan`, an
external call that may throw) and fall back to the simple plan on any
planning error.  Never throws. -/
def agentPlan (tools : Registry) (aiPlan : Except String PlanningResult)
    (mkId : Nat → String) (task : Task) : List Step :=
  if tools.length = 0 then createSimplePlan tools mkId task
  else
    match aiPlan with
    | .ok planningResult => convertPlanToSteps mkId planningResult
    | .error _ => createSimplePlan tools mkId task

/-- `BaseAgent.execute` specialised to the `AutomationAgent`: the planner is
`agentPlan` (which never throws) and tools are executed through the
registry; `duration` is the observed execution time fed to the registry. -/
def autoExecute (tools : Registry) (aiPlan : Except String PlanningResult)
    (mkId : Nat → String) (duration : Int) (taskId : String)
    (raw : RawTaskInput) : Except String Task :=
  execute (fun task => .ok (agentPlan tools aiPlan mkId task))
    (fun name params => .ok (registryExecute tools name params duration).1)
    taskId raw

-- ===========================================================================
-- Resilience layer: retry (`withRetry`, src/utils/retry.ts)
-- ===========================================================================

/-- A JS error as classified by `isRetryableError`: `isAbort` marks a
`p-retry` `AbortError`, `message` is `error.message`. -/
structure RErr where
  isAbort : Bool := false
  message : String
deriving Repr, DecidableEq

/-- `isRetryableError(error)`: an `AbortError` is never retryable; otherwise
retry on network resets/timeouts, rate limiting, 5xx server errors and the
OpenAI overload messages — all by substring tests on the message. -/
def isRetryableError (e : RErr) : Bool :=
  if e.isAbort then false
  else
    strContains e.message "ECONNRESET" || strContains e.message "ETIMEDOUT" ||
    strContains e.message "429" || strContains e.message "rate limit" ||
    strContains e.message "500" || strContains e.message "502" ||
    strContains e.message "503" ||
    strContains e.message "overloaded" || strContains e.message "capacity"

/-- The `p-retry` loop driving `withRetry`'s wrapped operation.  `op n` is
the outcome of the n-th invocation (numbered from 1).  The wrapper turns a
non-retryable failure into an `AbortError`, which stops `p-retry`
immediately; a retryable failure is retried while `fuel` (retries left)
remains, and the last failure is surfaced when it runs out.  Returns the
final outcome and the number of invocations performed. -/
def retryGo {α : Type} (op : Nat → Except RErr α) :
    Nat → Nat → Except RErr α × Nat
  | fuel, attempt =>
    match op attempt with
    | .ok v => (.ok v, attempt)
    | .error e =>
      if ¬ isRetryableError e then
        (.error { e with isAbort := true }, attempt)
      else
        match fuel with
        | 0 => (.error e, attempt)
        | fuel' + 1 => retryGo op fuel' (attempt + 1)

/-- `withRetry(operation, options)`: up to `retries` additional attempts
after the first.  (Backoff delays do not affect the value/attempt-count
semantics and are external to the embedding.) -/
def withRetry {α : Type} (op : Nat → Except RErr α) (retries : Nat) :
    Except RErr α × Nat :=
  retryGo op retries 1

-- ===========================================================================
-- Resilience layer: circuit breaker (`CircuitBreaker`, src/utils/retry.ts)
-- ===========================================================================

/-- `CircuitState`.  (`opened` embeds the source's `'open'`, a reserved word
here.) -/
inductive CircuitState where
  | closed | opened | halfOpen
deriving Repr, DecidableEq

/-- `CircuitBreakerOptions`. -/
structure CBOptions where
  failureThreshold : Nat
  resetTimeoutMs : Nat

/-- The breaker's mutable fields: state, consecutive failures, time of the
last failure (`Date.now()` values embedded as integers). -/
structure CB where
  state : CircuitState := .closed
  failures : Nat := 0
  lastFailureTime : Option Int := none
deriving Repr, DecidableEq

/-- `shouldAttemptReset()` at wall-clock time `now`: true when no failure
was recorded, or when at least `resetTimeoutMs` has elapsed since the last
one. -/
def shouldAttemptReset (opts : CBOptions) (cb : CB) (now : Int) : Bool :=
  match cb.lastFailureTime with
  | none => true
  | some t => now - t ≥ (opts.resetTimeoutMs : Int)

/-- `onSuccess()`: reset failures, close the breaker. -/
def onSuccess (cb : CB) : CB :=
  { cb with failures := 0, state := .closed }

/-- `onFailure()` at time `now`: count the failure, stamp it, and open the
breaker once the threshold is reached. -/
def onFailure (opts : CBOptions) (cb : CB) (now : Int) : CB :=
  let f := cb.failures + 1
  let cb := { cb with failures := f, lastFailureTime := some now }
  if f ≥ opts.failureThreshold then { cb with state := .opened } else cb

/-- `CircuitBreaker.execute(operation)` at time `now` with the operation's
outcome `op` (`Except.error` = the operation rejects).  Returns the call's
outcome (`.error none` = rejected with "Circuit breaker is open", `.error
(some e)` = the operation's own error rethrown), the new breaker fields, and
the state the operation was invoked in (`none` when it was not invoked). -/
def cbExecute {α : Type} (opts : CBOptions) (cb : CB) (now : Int)
    (op : Except RErr α) : Except (Option RErr) α × CB × Option CircuitState :=
  if cb.state = .opened ∧ ¬ shouldAttemptReset opts cb now then
    (.error none, cb, none)
  else
    let cb := if cb.state = .opened then { cb with state := .halfOpen } else cb
    match op with
    | .ok v => (.ok v, onSuccess cb, some cb.state)
    | .error e => (.error (some e), onFailure opts cb now, some cb.state)

/-- A run of consecutive failing calls against the breaker, at the given
times: fold of `cbExecute` with a failing operation. -/
def cbFailRun (opts : CBOptions) (e : RErr) : CB → List Int → CB
  | cb, [] => cb
  | cb, now :: rest =>
    cbFailRun opts e (cbExecute opts cb now (.error (α := Unit) e)).2.1 rest

-- ===========================================================================
-- Auxiliary predicates and concrete fixtures
-- ===========================================================================

mutual

/-- A value free of sigil-prefixed strings and of arrays, at every depth:
the fragment of the value space on which the Parameter Resolver acts as the
identity. -/
def Value.plain : Value → Bool
  | .vstr s => !(startsWithDollar s)
  | .vnum _ => true
  | .vbool _ => true
  | .vnull => true
  | .vobj fields => plainFields fields
  | .varr _ => false

/-- `Value.plain` over the entries of an object. -/
def plainFields : List (String × Value) → Bool
  | [] => true
  | (_, v) :: rest => v.plain && plainFields rest

end

/-- A planner that returns no steps — the degenerate collaborator exercising
the empty-plan path of the orchestrator. -/
def emptyPlanner : Task → Except String (List Step) :=
  fun _ => .ok []

/-- The tool-execution function of an empty registry. -/
def noTools : String → Params → Except String ToolResult :=
  fun name params => .ok (registryExecute [] name params 0).1

/-- A deterministic id supply standing in for `generateId('step')`. -/
def stepIds : Nat → String :=
  fun i => "step_" ++ toString i

/-- A concrete always-succeeding tool used by witnesses. -/
def echoTool : ToolDefinition :=
  { name := "echo",
    parameters := [{ name := "text", required := true }],
    run := fun params => .ok { success := true, data := lookupEntry params "text" } }

/-- A concrete reliably failing tool used by witnesses. -/
def brokenTool : ToolDefinition :=
  { name := "broken",
    parameters := [],
    run := fun _ => .ok { success := false, error := some "boom" } }

/-- The tool-execution function of a registry holding only `brokenTool`. -/
def brokenExec : String → Params → Except String ToolResult :=
  fun name params => .ok (registryExecute [brokenTool] name params 0).1

/-- A concrete pending step targeting `brokenTool`, used by witnesses. -/
def stepFail : Step :=
  { id := "s1", name := "failing", description := "d", toolName := "broken",
    parameters := [] }

/-- A concrete pending step planned after `stepFail`, used by witnesses. -/
def stepAfter : Step :=
  { id := "s2", name := "later", description := "d", toolName := "broken",
    parameters := [] }

/-- A concrete task used by witnesses of the planning claims. -/
def demoTask : Task :=
  { id := "task_1", input := { description := "demo" } }

-- ===========================================================================
-- Theorems
-- ===========================================================================

-- Helper lemmas (shared) -----------------------------------------------------

theorem lookupEntry_setEntry_self {α : Type} (l : List (String × α)) (k : String)
    (v : α) : lookupEntry (setEntry l k v) k = some v := by
  induction l with
  | nil => simp [setEntry, lookupEntry]
  | cons hd tl ih =>
    obtain ⟨k', v'⟩ := hd
    by_cases h : k' = k
    · simp [setEntry, h, lookupEntry]
    · simp [setEntry, h, lookupEntry, ih]

theorem startsWithDollar_append (path : String) :
    startsWithDollar ("$" ++ path) = true := by
  cases path
  rfl

theorem strDropOne_append (path : String) :
    strDropOne ("$" ++ path) = path := by
  cases path
  rfl

theorem resolveValue_ref_some (vars : VarMap) (path : String) (v : Value)
    (hl : lookupEntry vars path = some v) (hnn : v.isNull = false) :
    resolveValue vars (.vstr ("$" ++ path)) = v := by
  simp [resolveValue, startsWithDollar_append, strDropOne_append, hl, hnn]

theorem resolveValue_ref_none (vars : VarMap) (path : String)
    (hl : lookupEntry vars path = none) :
    resolveValue vars (.vstr ("$" ++ path)) = .vstr ("$" ++ path) := by
  simp [resolveValue, startsWithDollar_append, strDropOne_append, hl]

mutual

theorem resolveValue_plain (vars : VarMap) :
    (v : Value) → v.plain = true → resolveValue vars v = v
  | .vstr s, h => by
    simp [Value.plain] at h
    simp [resolveValue, h]
  | .vnum _, _ => rfl
  | .vbool _, _ => rfl
  | .vnull, _ => rfl
  | .vobj fields, h => by
    simp only [Value.plain] at h
    simp [resolveValue, resolveFields_plain vars fields h]
  | .varr _, h => by simp [Value.plain] at h

theorem resolveFields_plain (vars : VarMap) :
    (l : List (String × Value)) → plainFields l = true → resolveFields vars l = l
  | [], _ => rfl
  | (k, v) :: rest, h => by
    simp only [plainFields, Bool.and_eq_true] at h
    simp [resolveFields, resolveValue_plain vars v h.1,
      resolveFields_plain vars rest h.2]

end

/-- C1, counterexample: `execute` does raise past its boundary on invalid
input — `TaskInputSchema.parse` runs before the `try`/`catch`, so the empty
description (rejected by `z.string().min(1, 'Task description is
required')`) makes `execute` throw a validation error instead of returning
a failed `Task`. -/
theorem c1_counterexample :
    execute emptyPlanner noTools "task_1" { description := "" } =
      .error "Task description is required" := rfl

/-- C5, counterexample: the task `{description:"add 30 days", context:{}}`
with no tools registered yields a single fallback step, but the returned
task is `failed` (the fallback tool `analyze_text` is itself unregistered),
not `completed` as claimed. -/
theorem c5_counterexample :
    ∃ t, autoExecute [] (.error "planner unreachable") stepIds 0 "task_1"
        { description := "add 30 days", context := some [] } = .ok t ∧
      t.steps.length = 1 ∧ t.status = .failed ∧ t.status ≠ .completed :=
  ⟨_, rfl, rfl, rfl, by decide⟩

/-- C5, amended: the scenario produces exactly one fallback `analyze_text`
step, and the task fails with the registry's tool-not-found error. -/
theorem c5_amended :
    ∃ t, autoExecute [] (.error "planner unreachable") stepIds 0 "task_1"
        { description := "add 30 days", context := some [] } = .ok t ∧
      t.steps.map (fun s => (s.toolName, s.status)) = [("analyze_text", .failed)] ∧
      t.status = .failed ∧ t.error = some "Tool 'analyze_text' not found" :=
  ⟨_, rfl, rfl, rfl, rfl⟩

/-- C6, counterexample: a planner returning an empty step list yields a
`completed` task with zero steps and no error — there is no
"no steps produced" failure in the code. -/
theorem c6_counterexample :
    ∃ t, autoExecute [echoTool] (.ok { reasoning := "r", steps := [] }) stepIds 0
        "task_1" { description := "demo" } = .ok t ∧
      t.steps = [] ∧ t.status = .completed ∧ t.error = none :=
  ⟨_, rfl, rfl, rfl, rfl⟩

/-- C7, counterexample: the unknown-tool early return carries no metadata at
all, so no `executionTimeMs` entry is attached in that case. -/
theorem c7_counterexample :
    (registryExecute [] "calculate_date" [("operation", .vstr "add")] 5).1.metadata
        = none ∧
      (registryExecute [] "calculate_date" [("operation", .vstr "add")] 5).1.error
        = some "Tool 'calculate_date' not found" :=
  ⟨rfl, rfl⟩

/-- C9: the resolver does recurse into array-valued parameters — the
`typeof value === 'object'` branch captures JS arrays, so the array
`["$v", 2]` under context `v = 99` comes back as the index-keyed plain
object `{"0": 99, "1": 2}` with the sigil resolved, not unchanged. -/
theorem c9_arrays_recursed :
    resolveParameters [("items", .varr [.vstr "$v", .vnum 2])] [("v", .vnum 99)] =
      [("items", .vobj [("0", .vnum 99), ("1", .vnum 2)])] := rfl

/-- C8, amended: the Parameter Resolver is the identity — hence idempotent —
on parameter maps containing no sigil-prefixed strings and no arrays; a
parameter `$<path>` resolves to the value most recently stored under the
exact key `<path>` provided that value is not `null` (retrieval after
`setEntry` yields the stored value); if the key is absent (or its value is
`null`, through the `??` fallback) the original sigil string is kept, so
resolution never fails. -/
theorem c8_resolver (vars : VarMap) (p : Params) (path path2 : String) (v : Value) :
    (plainFields p = true →
       resolveParameters p vars = p ∧
       resolveParameters (resolveParameters p vars) vars = resolveParameters p vars) ∧
    (lookupEntry vars path = some v → v.isNull = false →
       resolveValue vars (.vstr ("$" ++ path)) = v) ∧
    (lookupEntry vars path2 = none →
       resolveValue vars (.vstr ("$" ++ path2)) = .vstr ("$" ++ path2)) ∧
    lookupEntry (setEntry vars path v) path = some v := by
  refine ⟨fun h => ?_, resolveValue_ref_some vars path v,
    resolveValue_ref_none vars path2, lookupEntry_setEntry_self vars path v⟩
  have hid : resolveParameters p vars = p := resolveFields_plain vars p h
  exact ⟨hid, by rw [hid, hid]⟩

/-- C8, witness: on the concrete map `{a: 1, b: {c: "lit"}}` the resolver is
the identity; `$step.s1.result` against a context storing `{x: 5}` under
`step.s1.result` resolves to `{x: 5}`; an absent key keeps the sigil
string. -/
theorem c8_resolver_witness :
    resolveParameters [("a", .vnum 1), ("b", .vobj [("c", .vstr "lit")])]
        [("step.s1.result", .vobj [("x", .vnum 5)])] =
      [("a", .vnum 1), ("b", .vobj [("c", .vstr "lit")])] ∧
    resolveValue [("step.s1.result", .vobj [("x", .vnum 5)])]
        (.vstr ("$" ++ "step.s1.result")) = .vobj [("x", .vnum 5)] ∧
    resolveValue [("step.s1.result", .vobj [("x", .vnum 5)])]
        (.vstr ("$" ++ "missing")) = .vstr ("$" ++ "missing") :=
  ⟨((c8_resolver [("step.s1.result", .vobj [("x", .vnum 5)])]
      [("a", .vnum 1), ("b", .vobj [("c", .vstr "lit")])]
      "step.s1.result" "missing" (.vobj [("x", .vnum 5)])).1 (by decide)).1,
   (c8_resolver [("step.s1.result", .vobj [("x", .vnum 5)])]
      [("a", .vnum 1), ("b", .vobj [("c", .vstr "lit")])]
      "step.s1.result" "missing" (.vobj [("x", .vnum 5)])).2.1 rfl rfl,
   (c8_resolver [("step.s1.result", .vobj [("x", .vnum 5)])]
      [("a", .vnum 1), ("b", .vobj [("c", .vstr "lit")])]
      "step.s1.result" "missing" (.vobj [("x", .vnum 5)])).2.2.1 rfl⟩

/-- C8, counterexample: the resolver is not the identity on a parameter map
with no sigil-prefixed strings — an array value is rebuilt as an
index-keyed object, so `resolve(p, c) ≠ p`. -/
theorem c8_counterexample :
    resolveParameters [("xs", .varr [.vstr "hi"])] [] ≠ [("xs", .varr [.vstr "hi"])] := by
  intro h
  have h2 := congrArg (fun q => (lookupEntry q "xs").map Value.isArr) h
  exact absurd h2 (by decide)

/-- C7, amended: an unknown tool yields `{success:false, error:"Tool '<name>'
not found"}` without invoking any capability; `executionTimeMs` is attached
to the result's metadata whenever the tool is found and no required
parameter is missing (tool success, tool failure and thrown error alike),
but the unknown-tool and missing-required-parameter early returns carry no
metadata. -/
theorem c7_registry (tools : Registry) (name : String) (params : Params)
    (dur : Int) :
    (findTool tools name = none →
       registryExecute tools name params dur =
         ({ success := false, error := some ("Tool '" ++ name ++ "' not found") },
          false)) ∧
    (∀ tool, findTool tools name = some tool →
       (missingParams tool.parameters params ≠ [] →
          (registryExecute tools name params dur).1.success = false ∧
          (registryExecute tools name params dur).1.metadata = none ∧
          (registryExecute tools name params dur).2 = false) ∧
       (missingParams tool.parameters params = [] →
          ∃ md, (registryExecute tools name params dur).1.metadata = some md ∧
            lookupEntry md "executionTimeMs" = some (.vnum dur))) := by
  constructor
  · intro h
    simp [registryExecute, h]
  · intro tool h
    constructor
    · intro hm
      simp [registryExecute, h, hm]
    · intro hm
      cases hr : tool.run (applyDefaults tool.parameters params) with
      | ok result =>
        exact ⟨setEntry (result.metadata.getD []) "executionTimeMs" (.vnum dur),
          by simp [registryExecute, h, hm, hr], lookupEntry_setEntry_self _ _ _⟩
      | error msg =>
        exact ⟨[("executionTimeMs", .vnum dur)],
          by simp [registryExecute, h, hm, hr], by simp [lookupEntry]⟩

/-- C7, witness: with the one-tool registry `[echo]`, an unknown name is
rejected without invocation; a call missing the required `text` parameter
carries no metadata; a well-formed call's metadata holds
`executionTimeMs = 7`. -/
theorem c7_registry_witness :
    registryExecute [echoTool] "nope" [] 7 =
      ({ success := false, error := some ("Tool '" ++ "nope" ++ "' not found") },
       false) ∧
    (registryExecute [echoTool] "echo" [] 7).1.metadata = none ∧
    ∃ md, (registryExecute [echoTool] "echo" [("text", .vstr "hi")] 7).1.metadata
        = some md ∧
      lookupEntry md "executionTimeMs" = some (.vnum 7) :=
  ⟨(c7_registry [echoTool] "nope" [] 7).1 rfl,
   (((c7_registry [echoTool] "echo" [] 7).2 echoTool rfl).1 (by decide)).2.1,
   ((c7_registry [echoTool] "echo" [("text", .vstr "hi")] 7).2 echoTool rfl).2 rfl⟩

/-- C10: when a step's tool call succeeds with an undefined (`none`) data
payload, the Step Executor still records the `ToolResult` under the step id
in `stepResults` and completes the step, but registers nothing in the
variable map; a later `$step.<id>.result` reference therefore resolves to
the literal sigil string. -/
theorem c10_undefined_data (te : String → Params → Except String ToolResult)
    (step : Step) (ctx : ExecutionContext) (r : ToolResult)
    (hrun : te step.toolName (resolveParameters step.parameters ctx.vars) = .ok r)
    (hsucc : r.success = true) (hdata : r.data = none)
    (habsent : lookupEntry ctx.vars ("step." ++ step.id ++ ".result") = none) :
    (executeStep te step ctx).1.status = .completed ∧
    (executeStep te step ctx).2.stepResults = setEntry ctx.stepResults step.id r ∧
    (executeStep te step ctx).2.vars = ctx.vars ∧
    resolveValue (executeStep te step ctx).2.vars
        (.vstr ("$" ++ ("step." ++ step.id ++ ".result"))) =
      .vstr ("$" ++ ("step." ++ step.id ++ ".result")) := by
  have he : executeStep te step ctx =
      ({ step with status := .completed, result := none },
       { ctx with stepResults := setEntry ctx.stepResults step.id r }) := by
    simp only [resolveParameters] at hrun
    simp [executeStep, resolveParameters, hrun, hsucc, hdata]
  rw [he]
  exact ⟨rfl, rfl, rfl, resolveValue_ref_none _ _ habsent⟩

/-- C10, witness: a tool that succeeds with no data leaves the variable map
empty while the step completes and its result is recorded, and
`$step.s1.result` stays literal. -/
theorem c10_undefined_data_witness :
    (executeStep (fun _ _ => .ok { success := true })
        { id := "s1", name := "n", description := "d", toolName := "t",
          parameters := [] } { taskId := "task_1" }).1.status = .completed ∧
    (executeStep (fun _ _ => .ok { success := true })
        { id := "s1", name := "n", description := "d", toolName := "t",
          parameters := [] } { taskId := "task_1" }).2.stepResults =
      setEntry [] "s1" { success := true } ∧
    (executeStep (fun _ _ => .ok { success := true })
        { id := "s1", name := "n", description := "d", toolName := "t",
          parameters := [] } { taskId := "task_1" }).2.vars = [] ∧
    resolveValue (executeStep (fun _ _ => .ok { success := true })
        { id := "s1", name := "n", description := "d", toolName := "t",
          parameters := [] } { taskId := "task_1" }).2.vars
        (.vstr ("$" ++ ("step." ++ "s1" ++ ".result"))) =
      .vstr ("$" ++ ("step." ++ "s1" ++ ".result")) := by
  have h := c10_undefined_data (fun _ _ => .ok { success := true })
    { id := "s1", name := "n", description := "d", toolName := "t",
      parameters := [] } { taskId := "task_1" } { success := true }
    rfl rfl rfl rfl
  exact h

-- Retry loop lemmas ----------------------------------------------------------

theorem retryGo_success {α : Type} (op : Nat → Except RErr α) :
    ∀ (d fuel a : Nat) (v : α), d ≤ fuel →
      (∀ j, j < d → ∃ e, op (a + j) = .error e ∧ isRetryableError e = true) →
      op (a + d) = .ok v →
      retryGo op fuel a = (.ok v, a + d) := by
  intro d
  induction d with
  | zero =>
    intro fuel a v _ _ hok
    simp only [Nat.add_zero] at hok
    simp [retryGo, hok]
  | succ d ih =>
    intro fuel a v hd hfail hok
    obtain ⟨e, he, hre⟩ := hfail 0 (Nat.succ_pos d)
    simp only [Nat.add_zero] at he
    cases fuel with
    | zero => omega
    | succ f =>
      have hrec : retryGo op f (a + 1) = (.ok v, (a + 1) + d) := by
        refine ih f (a + 1) v (by omega) ?_ ?_
        · intro j hj
          obtain ⟨e2, he2, hre2⟩ := hfail (j + 1) (by omega)
          exact ⟨e2, by rw [show a + 1 + j = a + (j + 1) by omega]; exact he2, hre2⟩
        · rw [show a + 1 + d = a + (d + 1) by omega]; exact hok
      rw [show a + (d + 1) = (a + 1) + d by omega]
      simp [retryGo, he, hre, hrec]

theorem retryGo_exhaust {α : Type} (op : Nat → Except RErr α) :
    ∀ (fuel a : Nat),
      (∀ j, j ≤ fuel → ∃ e, op (a + j) = .error e ∧ isRetryableError e = true) →
      ∃ e, retryGo op fuel a = (.error e, a + fuel) ∧ isRetryableError e = true := by
  intro fuel
  induction fuel with
  | zero =>
    intro a hfail
    obtain ⟨e, he, hre⟩ := hfail 0 (Nat.le_refl 0)
    simp only [Nat.add_zero] at he
    exact ⟨e, by simp [retryGo, he, hre], hre⟩
  | succ f ih =>
    intro a hfail
    obtain ⟨e, he, hre⟩ := hfail 0 (Nat.zero_le _)
    simp only [Nat.add_zero] at he
    obtain ⟨e2, hrec, hre2⟩ := ih (a + 1) (fun j hj => by
      obtain ⟨e3, he3, hre3⟩ := hfail (j + 1) (by omega)
      exact ⟨e3, by rw [show a + 1 + j = a + (j + 1) by omega]; exact he3, hre3⟩)
    refine ⟨e2, ?_, hre2⟩
    rw [show a + (f + 1) = (a + 1) + f by omega]
    simp [retryGo, he, hre, hrec]

theorem retryGo_abort {α : Type} (op : Nat → Except RErr α) :
    ∀ (d fuel a : Nat) (e : RErr), d ≤ fuel →
      (∀ j, j < d → ∃ e2, op (a + j) = .error e2 ∧ isRetryableError e2 = true) →
      op (a + d) = .error e → isRetryableError e = false →
      retryGo op fuel a = (.error { e with isAbort := true }, a + d) := by
  intro d
  induction d with
  | zero =>
    intro fuel a e _ _ herr hnr
    simp only [Nat.add_zero] at herr
    simp [retryGo, herr, hnr]
  | succ d ih =>
    intro fuel a e hd hfail herr hnr
    obtain ⟨e2, he2, hre2⟩ := hfail 0 (Nat.succ_pos d)
    simp only [Nat.add_zero] at he2
    cases fuel with
    | zero => omega
    | succ f =>
      have hrec : retryGo op f (a + 1) = (.error { e with isAbort := true }, (a + 1) + d) := by
        refine ih f (a + 1) e (by omega) ?_ ?_ hnr
        · intro j hj
          obtain ⟨e3, he3, hre3⟩ := hfail (j + 1) (by omega)
          exact ⟨e3, by rw [show a + 1 + j = a + (j + 1) by omega]; exact he3, hre3⟩
        · rw [show a + 1 + d = a + (d + 1) by omega]; exact herr
      rw [show a + (d + 1) = (a + 1) + d by omega]
      simp [retryGo, he2, hre2, hrec]

/-- C3: `withRetry` with `op n` the outcome of the n-th invocation — if the
first `k−1` invocations fail retryably and invocation `k` succeeds
(`k ≤ retries+1`), the success value is returned after exactly `k`
invocations; if all `retries+1` invocations fail retryably, a failure is
surfaced after exactly `retries+1` invocations; a non-retryable failure on
invocation `k` aborts immediately: exactly `k` invocations happen. -/
theorem c3_withRetry {α : Type} (op : Nat → Except RErr α) (retries k : Nat) :
    (1 ≤ k → k ≤ retries + 1 →
       (∀ i, 1 ≤ i → i < k → ∃ e, op i = .error e ∧ isRetryableError e = true) →
       ∀ v, op k = .ok v → withRetry op retries = (.ok v, k)) ∧
    ((∀ i, 1 ≤ i → i ≤ retries + 1 →
        ∃ e, op i = .error e ∧ isRetryableError e = true) →
       ∃ e, withRetry op retries = (.error e, retries + 1)) ∧
    (1 ≤ k → k ≤ retries + 1 →
       (∀ i, 1 ≤ i → i < k → ∃ e, op i = .error e ∧ isRetryableError e = true) →
       ∀ e, op k = .error e → isRetryableError e = false →
         withRetry op retries = (.error { e with isAbort := true }, k)) := by
  refine ⟨fun h1 hk hfail v hok => ?_, fun hfail => ?_, fun h1 hk hfail e herr hnr => ?_⟩
  · have := retryGo_success op (k - 1) retries 1 v (by omega)
      (fun j hj => by
        obtain ⟨e, he, hre⟩ := hfail (1 + j) (by omega) (by omega)
        exact ⟨e, he, hre⟩)
      (by rw [show 1 + (k - 1) = k by omega]; exact hok)
    rw [show (1 : Nat) + (k - 1) = k by omega] at this
    exact this
  · obtain ⟨e, hgo, hre⟩ := retryGo_exhaust op retries 1 (fun j hj => by
      obtain ⟨e, he, hre⟩ := hfail (1 + j) (by omega) (by omega)
      exact ⟨e, he, hre⟩)
    rw [show (1 : Nat) + retries = retries + 1 by omega] at hgo
    exact ⟨e, hgo⟩
  · have := retryGo_abort op (k - 1) retries 1 e (by omega)
      (fun j hj => by
        obtain ⟨e2, he2, hre2⟩ := hfail (1 + j) (by omega) (by omega)
        exact ⟨e2, he2, hre2⟩)
      (by rw [show 1 + (k - 1) = k by omega]; exact herr) hnr
    rw [show (1 : Nat) + (k - 1) = k by omega] at this
    exact this

/-- C3, witness: three concrete operations — success on the 3rd of up to 5
attempts after two timeouts; exhaustion of `retries = 2` on persistent rate
limiting; an immediate abort on a non-retryable error at attempt 2. -/
theorem c3_withRetry_witness :
    withRetry (fun n => if n = 3 then .ok (99 : Nat)
      else .error { message := "ETIMEDOUT" }) 4 = (.ok 99, 3) ∧
    (∃ e, withRetry (fun _ => (.error { message := "429" } : Except RErr Nat)) 2 =
      (.error e, 3)) ∧
    withRetry (fun n => if n = 2 then (.error { message := "boom" } : Except RErr Nat)
      else .error { message := "503" }) 4 =
      (.error { isAbort := true, message := "boom" }, 2) := by
  refine ⟨?_, ?_, ?_⟩
  · exact (c3_withRetry (fun n => if n = 3 then .ok (99 : Nat)
        else .error { message := "ETIMEDOUT" }) 4 3).1 (by omega) (by omega)
      (fun i h1 h2 => ⟨{ message := "ETIMEDOUT" },
        by simp [show ¬(i = 3) by omega], by decide⟩) 99 (by simp)
  · exact (c3_withRetry (fun _ => (.error { message := "429" } : Except RErr Nat))
      2 1).2.1 (fun i _ _ => ⟨{ message := "429" }, rfl, by decide⟩)
  · exact (c3_withRetry (fun n => if n = 2 then
        (.error { message := "boom" } : Except RErr Nat)
        else .error { message := "503" }) 4 2).2.2 (by omega) (by omega)
      (fun i h1 h2 => ⟨{ message := "503" }, by simp [show ¬(i = 2) by omega],
        by decide⟩)
      { message := "boom" } (by simp) (by decide)

-- Circuit breaker lemmas -----------------------------------------------------

theorem cbFailRun_closed (opts : CBOptions) (e : RErr) :
    ∀ (times : List Int) (cb : CB), cb.state = .closed →
      cb.failures + times.length ≤ opts.failureThreshold →
      (cbFailRun opts e cb times).failures = cb.failures + times.length ∧
      (cbFailRun opts e cb times).state =
        (if cb.failures + times.length = opts.failureThreshold ∧ times ≠ []
         then .opened else .closed) := by
  intro times
  induction times with
  | nil =>
    intro cb hst _
    simp [cbFailRun, hst]
  | cons now rest ih =>
    intro cb hst hle
    have hstep : cbFailRun opts e cb (now :: rest) =
        cbFailRun opts e (onFailure opts cb now) rest := by
      simp [cbFailRun, cbExecute, hst]
    by_cases hthr : cb.failures + 1 ≥ opts.failureThreshold
    · have hrest : rest = [] := by
        simp only [List.length_cons] at hle
        have : rest.length = 0 := by omega
        exact List.eq_nil_of_length_eq_zero this
      subst hrest
      have hopen : onFailure opts cb now =
          { state := .opened, failures := cb.failures + 1,
            lastFailureTime := some now } := by
        simp [onFailure, hthr]
      rw [hstep, hopen]
      simp only [List.length_cons, List.length_nil] at hle ⊢
      constructor
      · simp [cbFailRun]
      · have : cb.failures + 1 = opts.failureThreshold := by omega
        simp [cbFailRun, this]
    · have hclosed : onFailure opts cb now =
          { state := cb.state, failures := cb.failures + 1,
            lastFailureTime := some now } := by
        simp [onFailure, hthr]
      rw [hstep, hclosed]
      simp only [List.length_cons] at hle
      obtain ⟨hf, hs⟩ := ih ⟨cb.state, cb.failures + 1, some now⟩ hst
        (by simp; omega)
      refine ⟨by simp at hf ⊢; omega, ?_⟩
      rw [hs]
      by_cases heq : cb.failures + 1 + rest.length = opts.failureThreshold
      · have hne : rest ≠ [] := by
          intro hnil
          subst hnil
          simp at heq
          omega
        rw [if_pos ⟨by simpa using heq, hne⟩,
          if_pos ⟨by simp only [List.length_cons]; omega, by simp⟩]
      · rw [if_neg (fun h => heq (by simpa using h.1)),
          if_neg (fun h => heq (by
            have h1 := h.1
            simp only [List.length_cons] at h1
            omega))]

/-- C4: starting from a fresh breaker, `failureThreshold ≥ 1` consecutive
failures leave the breaker `open` with that failure count; while `open`, a
call before `resetTimeoutMs` has elapsed since the last failure is rejected
without invoking the operation and without touching the breaker; once
`resetTimeoutMs` has elapsed, the next call runs the operation in
`half-open` state, and its success closes the breaker and resets the
failure count to 0. -/
theorem c4_circuitBreaker {α : Type} (opts : CBOptions) (e : RErr)
    (times : List Int) (cb : CB) (t now1 now2 : Int) (v : α)
    (op : Except RErr α) :
    (1 ≤ opts.failureThreshold → times.length = opts.failureThreshold →
       (cbFailRun opts e {} times).state = .opened ∧
       (cbFailRun opts e {} times).failures = opts.failureThreshold) ∧
    (cb.state = .opened → cb.lastFailureTime = some t →
       now1 - t < (opts.resetTimeoutMs : Int) →
       cbExecute opts cb now1 op = (.error none, cb, none)) ∧
    (cb.state = .opened → cb.lastFailureTime = some t →
       now2 - t ≥ (opts.resetTimeoutMs : Int) →
       cbExecute opts cb now2 (.ok v) =
         (.ok v, { cb with state := .closed, failures := 0 }, some .halfOpen)) := by
  refine ⟨fun h1 hlen => ?_, fun hst hlt hbefore => ?_, fun hst hlt helapsed => ?_⟩
  · have hne : times ≠ [] := by
      intro hnil
      subst hnil
      simp at hlen
      omega
    obtain ⟨hf, hs⟩ := cbFailRun_closed opts e times {} rfl (by simpa using hlen.le)
    simp only [hlen] at hf hs
    refine ⟨?_, by rw [hf]; simp⟩
    rw [hs, if_pos ⟨by simp [hlen], hne⟩]
  · have hres : shouldAttemptReset opts cb now1 = false := by
      simp [shouldAttemptReset, hlt]
      omega
    simp [cbExecute, hst, hres]
  · have hres : shouldAttemptReset opts cb now2 = true := by
      simp [shouldAttemptReset, hlt]
      omega
    simp [cbExecute, hst, hres, onSuccess]

/-- C4, witness: with threshold 2 and reset timeout 100, two failures (at
times 10 and 20) open the breaker; at time 50 a call is rejected untouched;
at time 130 a successful call runs half-open and closes the breaker. -/
theorem c4_circuitBreaker_witness :
    (cbFailRun { failureThreshold := 2, resetTimeoutMs := 100 }
        { message := "500" } {} [10, 20]).state = .opened ∧
    cbExecute { failureThreshold := 2, resetTimeoutMs := 100 }
        { state := .opened, failures := 2, lastFailureTime := some 20 } 50
        (.ok (0 : Nat)) =
      (.error none,
       { state := .opened, failures := 2, lastFailureTime := some 20 }, none) ∧
    cbExecute { failureThreshold := 2, resetTimeoutMs := 100 }
        { state := .opened, failures := 2, lastFailureTime := some 20 } 130
        (.ok (0 : Nat)) =
      (.ok 0, { state := .closed, failures := 0, lastFailureTime := some 20 },
       some .halfOpen) :=
  ⟨((c4_circuitBreaker { failureThreshold := 2, resetTimeoutMs := 100 }
      { message := "500" } [10, 20]
      { state := .opened, failures := 2, lastFailureTime := some 20 } 20 50 130
      (0 : Nat) (.ok 0)).1 (by decide) (by decide)).1,
   (c4_circuitBreaker { failureThreshold := 2, resetTimeoutMs := 100 }
      { message := "500" } [10, 20]
      { state := .opened, failures := 2, lastFailureTime := some 20 } 20 50 130
      (0 : Nat) (.ok 0)).2.1 rfl rfl (by decide),
   (c4_circuitBreaker { failureThreshold := 2, resetTimeoutMs := 100 }
      { message := "500" } [10, 20]
      { state := .opened, failures := 2, lastFailureTime := some 20 } 20 50 130
      (0 : Nat) (.ok 0)).2.2 rfl rfl (by decide)⟩

-- Step-loop lemmas -----------------------------------------------------------

theorem executeStep_status (te : String → Params → Except String ToolResult)
    (step : Step) (ctx : ExecutionContext) :
    (executeStep te step ctx).1.status = .completed ∨
    (executeStep te step ctx).1.status = .failed := by
  cases h : te step.toolName (resolveFields ctx.vars step.parameters) with
  | ok r =>
    by_cases hs : r.success = true
    · left; simp [executeStep, resolveParameters, h, hs]
    · right; simp [executeStep, resolveParameters, h, hs]
  | error m => right; simp [executeStep, resolveParameters, h]

theorem runSteps_cases (te : String → Params → Except String ToolResult) :
    ∀ (steps : List Step) (err : Option String) (ctx : ExecutionContext),
      (∃ steps2 ctx2,
         runSteps te steps .executing err ctx = (steps2, .executing, err, ctx2) ∧
         steps2.length = steps.length ∧ ∀ s ∈ steps2, s.status = .completed) ∨
      (∃ pre s post ctx2,
         runSteps te steps .executing err ctx =
           (pre ++ s :: post, .failed, s.error, ctx2) ∧
         (∀ x ∈ pre, x.status = .completed) ∧ s.status = .failed ∧
         post <:+ steps) := by
  intro steps
  induction steps with
  | nil =>
    intro err ctx
    exact .inl ⟨[], ctx, by simp [runSteps], rfl, by simp⟩
  | cons step rest ih =>
    intro err ctx
    rcases hE : executeStep te step ctx with ⟨step2, ctx2⟩
    rcases executeStep_status te step ctx with hc | hf
    · rw [hE] at hc
      have hc2 : step2.status = Status.completed := hc
      rcases ih err ctx2 with ⟨rest2, ctx3, heq, hlen, hall⟩ |
        ⟨pre, s, post, ctx3, heq, hpre, hsf, hsuf⟩
      · refine .inl ⟨step2 :: rest2, ctx3, ?_, by simp [hlen], ?_⟩
        · simp [runSteps, hE, hc2, heq]
        · intro s hs
          rcases List.mem_cons.mp hs with rfl | hs2
          · exact hc2
          · exact hall s hs2
      · refine .inr ⟨step2 :: pre, s, post, ctx3, ?_, ?_, hsf,
          hsuf.trans (List.suffix_cons step rest)⟩
        · simp [runSteps, hE, hc2, heq]
        · intro x hx
          rcases List.mem_cons.mp hx with rfl | hx2
          · exact hc2
          · exact hpre x hx2
    · rw [hE] at hf
      have hf2 : step2.status = Status.failed := hf
      exact .inr ⟨[], step2, rest, ctx2, by simp [runSteps, hE, hf2], by simp, hf2,
        List.suffix_cons step rest⟩

/-- C1, amended: for every input accepted by the task-input schema,
`execute` never raises past its boundary — it returns a `Task` whose final
status is `completed` or `failed`, every internal failure being captured in
the task's status and error; invalid input, by contrast, raises a
validation error before any `Task` exists. -/
theorem c1_no_raise (planner : Task → Except String (List Step))
    (te : String → Params → Except String ToolResult) (taskId : String)
    (raw : RawTaskInput) (i : TaskInput)
    (hparse : parseTaskInput raw = .ok i) :
    ∃ t, execute planner te taskId raw = .ok t ∧
      (t.status = .completed ∨ t.status = .failed) := by
  refine ⟨executeBody planner te { id := taskId, input := i },
    by simp [execute, hparse], ?_⟩
  unfold executeBody
  cases hp : planner { id := taskId, input := i, status := .planning } with
  | error e => simp [hp]
  | ok steps =>
    rcases runSteps_cases te steps none { taskId := taskId } with
      ⟨steps2, ctx2, heq, _, _⟩ | ⟨pre, s, post, ctx2, heq, _, _, _⟩
    · left; simp [hp, heq]
    · right; simp [hp, heq]

/-- C1, witness: the valid input `{description := "demo"}` parses, and
`execute` on it returns a task that completed or failed. -/
theorem c1_no_raise_witness :
    ∃ t, execute emptyPlanner noTools "task_1" { description := "demo" } = .ok t ∧
      (t.status = .completed ∨ t.status = .failed) :=
  c1_no_raise emptyPlanner noTools "task_1" { description := "demo" }
    { description := "demo" } rfl

/-- C2: for every task executed with a planner that returns (rather than
throws) a plan of pending steps, the final status is `completed` iff every
step completed; and any failed step is the unique stopping point: the task
is `failed` carrying that step's error, every earlier step completed, and
every later step is still `pending` (never executed). -/
theorem c2_task_status (planner : Task → Except String (List Step))
    (te : String → Params → Except String ToolResult) (taskId : String)
    (raw : RawTaskInput) (t : Task)
    (htotal : ∀ task, ∃ steps, planner task = .ok steps)
    (hpend : ∀ task steps, planner task = .ok steps →
      ∀ s ∈ steps, s.status = .pending)
    (hok : execute planner te taskId raw = .ok t) :
    (t.status = .completed ↔ ∀ s ∈ t.steps, s.status = .completed) ∧
    (∀ s ∈ t.steps, s.status = .failed →
       t.status = .failed ∧ t.error = s.error ∧
       ∃ pre post, t.steps = pre ++ s :: post ∧
         (∀ x ∈ pre, x.status = .completed) ∧
         (∀ x ∈ post, x.status = .pending)) := by
  cases hparse : parseTaskInput raw with
  | error e => simp [execute, hparse] at hok
  | ok i =>
    simp only [execute, hparse, Except.ok.injEq] at hok
    obtain ⟨steps, hp⟩ := htotal { id := taskId, input := i, status := .planning }
    have hpend2 := hpend _ steps hp
    rcases runSteps_cases te steps none { taskId := taskId } with
      ⟨steps2, ctx2, heq, _hlen, hall⟩ |
      ⟨pre, s, post, ctx2, heq, hpre, hsf, hsuf⟩
    · have ht : t =
          { id := taskId, input := i, status := .completed,
            steps := steps2, result := some (aggregateResults steps2) } := by
        rw [← hok]
        simp [executeBody, hp, heq]
      subst ht
      constructor
      · simpa using fun s hs => hall s hs
      · intro s hs hfail
        exact absurd (hall s (by simpa using hs)) (by simp [hfail])
    · have ht : t =
          { id := taskId, input := i, status := .failed,
            steps := pre ++ s :: post, error := s.error } := by
        rw [← hok]
        simp [executeBody, hp, heq]
      subst ht
      constructor
      · constructor
        · intro h
          exact absurd h (by simp)
        · intro h
          have := h s (by simp)
          exact absurd (hsf.symm.trans this) (by simp)
      · intro s2 hs2 hfail
        refine ⟨rfl, ?_, pre, post, ?_⟩
        · -- s2 must be the stopping step s
          have hs2eq : s2 = s := by
            have hs3 : s2 ∈ pre ∨ s2 = s ∨ s2 ∈ post := by simpa using hs2
            rcases hs3 with hin | rfl | hin2
            · exact absurd (hpre s2 hin) (by simp [hfail])
            · rfl
            · have : s2 ∈ steps := hsuf.subset hin2
              exact absurd (hpend2 s2 this) (by simp [hfail])
          simp [hs2eq]
        · have hs2eq : s2 = s := by
            have hs3 : s2 ∈ pre ∨ s2 = s ∨ s2 ∈ post := by simpa using hs2
            rcases hs3 with hin | rfl | hin2
            · exact absurd (hpre s2 hin) (by simp [hfail])
            · rfl
            · have : s2 ∈ steps := hsuf.subset hin2
              exact absurd (hpend2 s2 this) (by simp [hfail])
          subst hs2eq
          exact ⟨by simp, hpre, fun x hx => hpend2 x (hsuf.subset hx)⟩

/-- C2, witness: a two-step plan whose first step targets the failing
`broken` tool — the task fails with the step's error, the first step is the
unique failed step, and the second stays pending. -/
theorem c2_task_status_witness :
    ∃ t, execute (fun _ => .ok [stepFail, stepAfter]) brokenExec "task_1"
        { description := "demo" } = .ok t ∧
      ((t.status = .completed ↔ ∀ s ∈ t.steps, s.status = .completed) ∧
       (∀ s ∈ t.steps, s.status = .failed →
          t.status = .failed ∧ t.error = s.error ∧
          ∃ pre post, t.steps = pre ++ s :: post ∧
            (∀ x ∈ pre, x.status = .completed) ∧
            (∀ x ∈ post, x.status = .pending))) :=
  ⟨_, rfl, c2_task_status (fun _ => .ok [stepFail, stepAfter]) brokenExec
    "task_1" { description := "demo" } _
    (fun _ => ⟨[stepFail, stepAfter], rfl⟩)
    (by
      intro task steps h s hs
      injection h with h2
      subst h2
      rcases List.mem_cons.mp hs with rfl | hs2
      · rfl
      · rcases List.mem_cons.mp hs2 with rfl | hs3
        · rfl
        · simp at hs3)
    rfl⟩

-- The repository's planner (AutomationAgent) satisfies the hypotheses of
-- `c2_task_status`: it never throws (it returns a plain list) and every step
-- it plans is `pending`.

theorem createSimplePlan_pending (tools : Registry) (mkId : Nat → String)
    (task : Task) :
    ∀ s ∈ createSimplePlan tools mkId task, s.status = .pending := by
  intro s hs
  cases hF : (tools.map (fun t => t.name)).find? (fun name =>
      strContains (strToLower task.input.description)
        (underscoresToSpaces name)) with
  | none =>
    simp [createSimplePlan, hF] at hs
    simp [hs]
  | some m =>
    simp [createSimplePlan, hF] at hs
    simp [hs]

theorem convertPlanToSteps_pending (mkId : Nat → String) (pr : PlanningResult) :
    ∀ s ∈ convertPlanToSteps mkId pr, s.status = .pending := by
  intro s hs
  simp only [convertPlanToSteps, List.mem_map] at hs
  obtain ⟨⟨i, ps⟩, _, rfl⟩ := hs
  rfl

theorem agentPlan_pending (tools : Registry) (ai : Except String PlanningResult)
    (mkId : Nat → String) (task : Task) :
    ∀ s ∈ agentPlan tools ai mkId task, s.status = .pending := by
  intro s hs
  unfold agentPlan at hs
  by_cases hz : tools.length = 0
  · rw [if_pos hz] at hs
    exact createSimplePlan_pending tools mkId task s hs
  · rw [if_neg hz] at hs
    cases ai with
    | ok pr => exact convertPlanToSteps_pending mkId pr s hs
    | error e => exact createSimplePlan_pending tools mkId task s hs

/-- C6, amended: planning never aborts the task — with no tools registered
or on any planner error the fallback produces exactly one step; but a
planner that returns an empty step list yields a `completed` task with zero
steps and no error (there is no "no steps produced" failure). -/
theorem c6_planning (tools : Registry) (ai : Except String PlanningResult)
    (mkId : Nat → String) (task : Task) (tools2 : Registry)
    (pr : PlanningResult) (mkId2 : Nat → String) (dur : Int) (taskId : String)
    (raw : RawTaskInput) (t : Task) :
    ((tools = [] ∨ ∃ e, ai = .error e) →
       (agentPlan tools ai mkId task).length = 1) ∧
    (pr.steps = [] → tools2 ≠ [] →
       autoExecute tools2 (.ok pr) mkId2 dur taskId raw = .ok t →
       t.steps = [] ∧ t.status = .completed ∧ t.error = none) := by
  constructor
  · have hsimple : ∀ (tl : Registry), (createSimplePlan tl mkId task).length = 1 := by
      intro tl
      cases hF : (tl.map (fun tool => tool.name)).find? (fun name =>
          strContains (strToLower task.input.description)
            (underscoresToSpaces name)) with
      | none => simp [createSimplePlan, hF]
      | some m => simp [createSimplePlan, hF]
    rintro (rfl | ⟨e, rfl⟩)
    · simp only [agentPlan]
      simp [hsimple]
    · by_cases hz : tools.length = 0
      · simp [agentPlan, hz, hsimple]
      · simp [agentPlan, hz, hsimple]
  · intro hempty hne hok
    have hzero : ¬ tools2.length = 0 := by
      simpa using fun h => hne (List.eq_nil_of_length_eq_zero h)
    cases hparse : parseTaskInput raw with
    | error e => simp [autoExecute, execute, hparse] at hok
    | ok i =>
      have hplan : ∀ task2, agentPlan tools2 (.ok pr) mkId2 task2 = [] := by
        intro task2
        simp [agentPlan, hzero, convertPlanToSteps, hempty]
      simp only [autoExecute, execute, hparse, Except.ok.injEq] at hok
      rw [← hok]
      simp [executeBody, hplan, runSteps, aggregateResults]

/-- C6, witness: with no tools the fallback plan has exactly one step, and a
registered tool plus an empty LLM plan yields a completed zero-step task. -/
theorem c6_planning_witness :
    (agentPlan [] (.error "planner down") stepIds demoTask).length = 1 ∧
    ∃ t, autoExecute [echoTool] (.ok { reasoning := "r", steps := [] }) stepIds 0
        "task_1" { description := "demo" } = .ok t ∧
      (t.steps = [] ∧ t.status = .completed ∧ t.error = none) :=
  ⟨(c6_planning [] (.error "planner down") stepIds demoTask [echoTool]
      { reasoning := "r", steps := [] } stepIds 0 "task_1"
      { description := "demo" } demoTask).1 (.inl rfl),
   ⟨_, rfl,
    (c6_planning [] (.error "planner down") stepIds demoTask [echoTool]
      { reasoning := "r", steps := [] } stepIds 0 "task_1"
      { description := "demo" } _).2 rfl (by simp) rfl⟩⟩

end AIAutomation
